import Mathlib

/-!
Verification of the pwrstat-influxdb-scraper program (src/pwrstat-scraper.py)
against its natural-language specification.

Strings are modelled as `List Char` (Python text); numeric field values are
modelled as `ℚ` (Python floats in this program only ever hold small decimal
values, all exactly representable). Python's `str.split(sep)`, `str.strip()`,
`str.replace(' ', '')`, the `in` substring test and `float()` on plain decimal
literals are embedded below as executable Lean functions. Dictionaries are
modelled as association lists with Python-dict insertion semantics
(update-in-place on an existing key, append otherwise).
-/

/-- Python `s.split(sep)` for a one-character separator: always returns at
least one segment; empty segments are kept.  Models `line.split('.')`,
`out.split('\n')` and `value.split(' ')` from the source. -/
def splitOnChar (c : Char) : List Char → List (List Char)
  | [] => [[]]
  | x :: xs =>
    match splitOnChar c xs with
    | [] => [[]]
    | y :: ys => if x = c then [] :: y :: ys else (x :: y) :: ys

/-- Python `s.strip()`: drop whitespace from both ends. -/
def pyTrim (s : List Char) : List Char :=
  ((s.dropWhile Char.isWhitespace).reverse.dropWhile Char.isWhitespace).reverse

/-- Python `needle in hay` substring containment test. -/
def strContains (hay needle : List Char) : Bool :=
  (List.range (hay.length + 1)).any (fun i => needle.isPrefixOf (hay.drop i))

/-- Numeric value of a list of decimal digit characters. -/
def natOfDigits (l : List Char) : Nat :=
  l.foldl (fun a c => a * 10 + (c.toNat - 48)) 0

/-- Python `float(s)` on the plain decimal literals this program can meet
(optional surrounding whitespace, optional sign, digits with an optional
fractional part).  Returns `none` where `float()` raises `ValueError`.
Exponent/infinity/nan spellings never occur in pwrstat output and are
modelled as unparseable. -/
def parseFloat (s : List Char) : Option ℚ :=
  let t := pyTrim s
  let p : Bool × List Char :=
    match t with
    | '-' :: r => (true, r)
    | '+' :: r => (false, r)
    | _ => (false, t)
  let sign : Int := if p.1 then -1 else 1
  let ip := p.2.takeWhile Char.isDigit
  let rest := p.2.dropWhile Char.isDigit
  match rest with
  | [] => if ip = [] then none else some (mkRat (sign * natOfDigits ip) 1)
  | '.' :: fr =>
    if fr.all Char.isDigit ∧ ¬(ip = [] ∧ fr = []) then
      some (mkRat (sign * (natOfDigits ip * 10 ^ fr.length + natOfDigits fr)) (10 ^ fr.length))
    else none
  | _ => none

/-- Python `s.replace(' ', '')`: remove every space. -/
def stripSpaces (s : List Char) : List Char := s.filter (fun c => ¬ c = ' ')

/-- Python `raw.split(' ')[0]`: first space-delimited token. -/
def firstTok (raw : List Char) : List Char := (splitOnChar ' ' raw).headD []

/-- The parsed status dictionary (`pwrstat_dict` in the source), modelled as
an association list in Python-dict insertion order. -/
abbrev StatusMap := List (List Char × List Char)

/-- Keys of a StatusMap, in insertion order. -/
def mapKeys (m : StatusMap) : List (List Char) := m.map Prod.fst

/-- Python `d[k] = v` on a dict: overwrite in place if present, else append. -/
def mapInsert (m : StatusMap) (k v : List Char) : StatusMap :=
  if k ∈ mapKeys m then m.map (fun p => if p.1 = k then (k, v) else p)
  else m ++ [(k, v)]

/-- Python `d[k]` lookup (`none` models a raised `KeyError`). -/
def mapLookup (m : StatusMap) (k : List Char) : Option (List Char) :=
  match m with
  | [] => none
  | p :: rest => if p.1 = k then some p.2 else mapLookup rest k

/-- The substring the source tests with `'Remaining Runtime' in line`. -/
def RUNTIME_KEY : List Char := "Remaining Runtime".toList

/-- Label of a status line: `line.split('.')[0].strip()` (source line 101). -/
def lineKey (line : List Char) : List Char :=
  pyTrim ((splitOnChar '.' line).headD [])

/-- Value of a status line (source lines 103-106): the second-to-last
period-delimited segment when the line contains "Remaining Runtime",
otherwise the last segment; trimmed either way. -/
def lineVal (line : List Char) : List Char :=
  let ls := splitOnChar '.' line
  if strContains line RUNTIME_KEY then pyTrim (ls.getD (ls.length - 2) [])
  else pyTrim (ls.getLastD [])

/-- One iteration of the parse loop body (source lines 92-108): skip empty
lines and lines without a period, otherwise produce the key/value pair. -/
def parse_line (line : List Char) : Option (List Char × List Char) :=
  if line = [] then none
  else if '.' ∉ line then none
  else some (lineKey line, lineVal line)

/-- The parse loop over the remaining lines, threading the dictionary. -/
def processLines : List (List Char) → StatusMap → StatusMap
  | [], acc => acc
  | l :: ls, acc =>
    match parse_line l with
    | none => processLines ls acc
    | some kv => processLines ls (mapInsert acc kv.1 kv.2)

/-- `parse_pwrstat` (source lines 83-110): split stdout on newlines, discard
the first three lines, then run the parse loop on the rest. -/
def parse_pwrstat (out : List Char) : StatusMap :=
  processLines ((splitOnChar '\n' out).drop 3) []

/-- The fixed tag-label list `IMPORTANT_PWRSTAT_TAG_KEYS` (source lines 28-33). -/
def IMPORTANT_PWRSTAT_TAG_KEYS : List (List Char) :=
  ["Model Name".toList, "Firmware Number".toList,
   "Rating Voltage".toList, "Rating Power".toList]

/-- The fixed value-label list `IMPORTANT_PWRSTAT_VALUE_KEYS` (source lines 35-43). -/
def IMPORTANT_PWRSTAT_VALUE_KEYS : List (List Char) :=
  ["State".toList, "Utility Voltage".toList, "Output Voltage".toList,
   "Battery Capacity".toList, "Remaining Runtime".toList, "Load".toList]

/-- The categorical transform registered for the "State" label (source
line 46): the sentinel string "Normal" maps to 0.0, everything else to 1.0. -/
def stateTransform (x : List Char) : ℚ :=
  if x = "Normal".toList then 0 else 1

/-- The transform table `IMPORTANT_PWRSTAT_STAT_KEYS_TRANSFORMS` (source
lines 45-48): "State" has the categorical transform, "Battery Capacity" has
`float(x)` (which can still fail), every other label has no entry.  A
transform returns `none` where the Python lambda would raise. -/
def transformFor (label : List Char) : Option (List Char → Option ℚ) :=
  if label = "State".toList then some (fun x => some (stateTransform x))
  else if label = "Battery Capacity".toList then some (fun x => parseFloat x)
  else none

/-- Effective numeric coercion of a value label's token (source lines
137-140): apply the registered transform if there is one, else `float`. -/
def coerceValue (label tok : List Char) : Option ℚ :=
  match transformFor label with
  | some f => f tok
  | none => parseFloat tok

/-- Failure modes of the field-mapping step: `missingField` models the
`KeyError` raised by `pwrstat_dict[key]` on an absent label, `valueCoercion`
models the `ValueError` raised by `float(value)` on a non-coercible token. -/
inductive FieldError
  | missingField (label : List Char)
  | valueCoercion (label : List Char) (tok : List Char)
deriving DecidableEq

instance {ε : Type} {α : Type} [DecidableEq ε] [DecidableEq α] :
    DecidableEq (Except ε α) := fun a b =>
  match a, b with
  | .error x, .error y =>
    if h : x = y then isTrue (congrArg Except.error h)
    else isFalse (fun hc => h (by injection hc))
  | .ok x, .ok y =>
    if h : x = y then isTrue (congrArg Except.ok h)
    else isFalse (fun hc => h (by injection hc))
  | .error _, .ok _ => isFalse (fun hc => Except.noConfusion hc)
  | .ok _, .error _ => isFalse (fun hc => Except.noConfusion hc)

/-- The tag loop of `write_influxdb` (source lines 129-132): for each tag
label in order, look it up (KeyError on absence), take the first
space-delimited token and store it under the space-stripped key. -/
def buildTags (m : StatusMap) : List (List Char) → Except FieldError (List (List Char × List Char))
  | [] => .ok []
  | k :: ks =>
    match mapLookup m k with
    | none => .error (.missingField k)
    | some raw =>
      match buildTags m ks with
      | .error e => .error e
      | .ok rest => .ok ((stripSpaces k, firstTok raw) :: rest)

/-- The value loop of `write_influxdb` (source lines 134-141): for each value
label in order, look it up (KeyError on absence), take the first token,
coerce it (transform or `float`, ValueError on failure) and store the number
under the space-stripped key. -/
def buildFields (m : StatusMap) : List (List Char) → Except FieldError (List (List Char × ℚ))
  | [] => .ok []
  | k :: ks =>
    match mapLookup m k with
    | none => .error (.missingField k)
    | some raw =>
      match coerceValue k (firstTok raw) with
      | none => .error (.valueCoercion k (firstTok raw))
      | some v =>
        match buildFields m ks with
        | .error e => .error e
        | .ok rest => .ok ((stripSpaces k, v) :: rest)

/-- The FieldMapper: both loops of `write_influxdb` in source order (tags
before values); the first raised error aborts the whole mapping. -/
def fieldMapper (m : StatusMap) : Except FieldError (List (List Char × List Char) × List (List Char × ℚ)) :=
  match buildTags m IMPORTANT_PWRSTAT_TAG_KEYS with
  | .error e => .error e
  | .ok t =>
    match buildFields m IMPORTANT_PWRSTAT_VALUE_KEYS with
    | .error e => .error e
    | .ok f => .ok (t, f)

/-- True exactly on an `error` result. -/
def exceptIsError {ε : Type} {α : Type} : Except ε α → Bool
  | .error _ => true
  | .ok _ => false

/-- The `json_body` point assembled by `write_influxdb` (source lines
122-127 and 145): measurement name, tags, fields and the timestamp. -/
structure MetricPoint where
  measurement : List Char
  tags : List (List Char × List Char)
  fields : List (List Char × ℚ)
  time : List Char
deriving DecidableEq

/-- Observable effects of the scrape loop, in the order they happen. -/
inductive Event
  | cmdErrorLog (msg : List Char)
  | parsed (m : StatusMap)
  | built (p : MetricPoint)
  | writeAttempt (p : MetricPoint)
  | writeErrorLog
  | crashed (e : FieldError)
  | slept
deriving DecidableEq

/-- One cycle's external inputs: the subprocess result (return code, stdout,
stderr), the wall-clock timestamp read during the cycle, and the sink's
answer to a write attempted in this cycle. -/
structure CycleInput where
  returncode : Int
  stdout : List Char
  stderr : List Char
  ts : List Char
  sinkOk : Bool

/-- `write_influxdb` (source lines 113-153): map the parsed dictionary to
tags/fields (exceptions propagate as `.error`), build the point with the
timestamp, then return without writing in dry-run mode; otherwise attempt
the write and log an error when the sink reports failure. -/
def write_influxdb (series : List Char) (m : StatusMap) (ts : List Char)
    (dryRun : Bool) (sinkOk : Bool) : Except FieldError (List Event) :=
  match fieldMapper m with
  | .error e => .error e
  | .ok tf =>
    let p : MetricPoint := ⟨series, tf.1, tf.2, ts⟩
    if dryRun then .ok [Event.built p]
    else if sinkOk then .ok [Event.built p, Event.writeAttempt p]
    else .ok [Event.built p, Event.writeAttempt p, Event.writeErrorLog]

/-- The `while True` loop of `run_scrape` (source lines 181-193), driven by
the finite trace of external cycle inputs still to come.  A non-zero return
code logs stderr and returns (terminating the loop); an uncaught
mapping exception also ends the process; otherwise the cycle parses, runs
`write_influxdb`, sleeps and continues. -/
def run_scrape_loop (series : List Char) (dryRun : Bool) : List CycleInput → List Event
  | [] => []
  | c :: rest =>
    if c.returncode ≠ 0 then [Event.cmdErrorLog c.stderr]
    else
      let m := parse_pwrstat c.stdout
      match write_influxdb series m c.ts dryRun c.sinkOk with
      | .error e => [Event.parsed m, Event.crashed e]
      | .ok evs => Event.parsed m :: (evs ++ Event.slept :: run_scrape_loop series dryRun rest)

/-- Join a list of lines with a separator character; inverse of
`splitOnChar` on texts whose lines avoid the separator.  Used to describe
well-formed status texts. -/
def joinLines (c : Char) : List (List Char) → List Char
  | [] => []
  | [l] => l
  | l :: ls => l ++ c :: joinLines c ls

/-- The fixture StatusMap named by the spec (property 6). -/
def fixtureMap : StatusMap :=
  [("Model Name".toList, "ModelX 1000".toList),
   ("Firmware Number".toList, "1.2".toList),
   ("Rating Voltage".toList, "120 V".toList),
   ("Rating Power".toList, "500 Watt".toList),
   ("State".toList, "Normal".toList),
   ("Utility Voltage".toList, "120 V".toList),
   ("Output Voltage".toList, "120 V".toList),
   ("Battery Capacity".toList, "100 Percent".toList),
   ("Remaining Runtime".toList, "45 min".toList),
   ("Load".toList, "30 Watt(20.0 %)".toList)]

/-- A StatusMap containing only the four tag labels (used to show the
value-list path of the missing-field failure triggers on its own). -/
def tagsOnlyMap : StatusMap :=
  [("Model Name".toList, "M".toList), ("Firmware Number".toList, "F".toList),
   ("Rating Voltage".toList, "1".toList), ("Rating Power".toList, "2".toList)]

/-- The fixture with a non-float-coercible "Utility Voltage" value. -/
def badCoerceMap : StatusMap :=
  [("Model Name".toList, "ModelX 1000".toList),
   ("Firmware Number".toList, "1.2".toList),
   ("Rating Voltage".toList, "120 V".toList),
   ("Rating Power".toList, "500 Watt".toList),
   ("State".toList, "Normal".toList),
   ("Utility Voltage".toList, "abc V".toList),
   ("Output Voltage".toList, "120 V".toList),
   ("Battery Capacity".toList, "100 Percent".toList),
   ("Remaining Runtime".toList, "45 min".toList),
   ("Load".toList, "30 Watt(20.0 %)".toList)]

/-- The fixture with a non-float-coercible "Utility Voltage" value AND the
required "Load" label absent: the coercion failure is reached first. -/
def mixedFailMap : StatusMap :=
  [("Model Name".toList, "ModelX 1000".toList),
   ("Firmware Number".toList, "1.2".toList),
   ("Rating Voltage".toList, "120 V".toList),
   ("Rating Power".toList, "500 Watt".toList),
   ("State".toList, "Normal".toList),
   ("Utility Voltage".toList, "abc V".toList),
   ("Output Voltage".toList, "120 V".toList),
   ("Battery Capacity".toList, "100 Percent".toList),
   ("Remaining Runtime".toList, "45 min".toList)]

/-- A complete well-formed pwrstat stdout: three header lines followed by
one dotted line per required label. -/
def goodStdout : List Char :=
  ("The UPS information shows as following:\n\nProperties:\nModel Name. ModelX 1000\nFirmware Number. 1122\nRating Voltage. 120 V\nRating Power. 500 Watt\nState. Normal\nUtility Voltage. 120 V\nOutput Voltage. 120 V\nBattery Capacity. 100 Percent\nRemaining Runtime. 45. min\nLoad. 30 Watt").toList

/-- Tags produced from `goodStdout`. -/
def goodTags : List (List Char × List Char) :=
  [("ModelName".toList, "ModelX".toList),
   ("FirmwareNumber".toList, "1122".toList),
   ("RatingVoltage".toList, "120".toList),
   ("RatingPower".toList, "500".toList)]

/-- Fields produced from `goodStdout`. -/
def goodFields : List (List Char × ℚ) :=
  [("State".toList, 0),
   ("UtilityVoltage".toList, 120),
   ("OutputVoltage".toList, 120),
   ("BatteryCapacity".toList, 100),
   ("RemainingRuntime".toList, 45),
   ("Load".toList, 30)]

/-- A cycle whose external command succeeds and whose stdout parses and
maps cleanly; the sink's answer is a parameter. -/
def goodCycle (sinkOk : Bool) : CycleInput :=
  ⟨0, goodStdout, [], "2024-01-01T00:00:00".toList, sinkOk⟩

/-- A cycle whose external command exits non-zero. -/
def failCycle : CycleInput :=
  ⟨1, [], "pwrstat: cannot communicate with UPS".toList, [], true⟩

/-- The metric point built from `goodCycle`. -/
def goodPoint : MetricPoint :=
  ⟨"ups".toList, goodTags, goodFields, "2024-01-01T00:00:00".toList⟩

lemma splitOnChar_ne_nil (c : Char) (l : List Char) : splitOnChar c l ≠ [] := by
  cases l with
  | nil => simp [splitOnChar]
  | cons x xs =>
    simp only [splitOnChar]
    cases h : splitOnChar c xs with
    | nil => simp
    | cons y ys =>
      by_cases hx : x = c <;> simp [hx]

lemma two_le_splitOnChar {c : Char} {l : List Char} (h : c ∈ l) :
    2 ≤ (splitOnChar c l).length := by
  induction l with
  | nil => cases h
  | cons x xs ih =>
    simp only [splitOnChar]
    cases hs : splitOnChar c xs with
    | nil => exact absurd hs (splitOnChar_ne_nil c xs)
    | cons y ys =>
      by_cases hx : x = c
      · simp [hx]
      · have hm : c ∈ xs := by
          rcases List.mem_cons.mp h with h1 | h1
          · exact absurd h1.symm hx
          · exact h1
        have := ih hm
        rw [hs] at this
        simpa [hx] using this

lemma mem_headD {α : Type} {l : List α} (d : α) (h : l ≠ []) : l.headD d ∈ l := by
  cases l with
  | nil => exact absurd rfl h
  | cons a as => simp

lemma mem_getLastD {α : Type} {l : List α} (d : α) (h : l ≠ []) : l.getLastD d ∈ l := by
  rw [List.getLastD_eq_getLast?, List.getLast?_eq_getLast l h]
  simp [List.getLast_mem]

lemma mem_getD {α : Type} {l : List α} {n : Nat} (d : α) (h : n < l.length) :
    l.getD n d ∈ l := by
  have : l.getD n d = (l.get? n).getD d := rfl
  rw [this, List.get?_eq_get h]
  simp [List.get_mem]

lemma splitOnChar_no_sep {c : Char} {x : List Char} (h : c ∉ x) :
    splitOnChar c x = [x] := by
  induction x with
  | nil => simp [splitOnChar]
  | cons a as ih =>
    have ha : ¬ a = c := by
      intro hac; exact h (by simp [hac])
    have has : c ∉ as := fun hm => h (by simp [hm])
    simp [splitOnChar, ih has, ha]

lemma splitOnChar_append_cons {c : Char} {x : List Char} (t : List Char) (h : c ∉ x) :
    splitOnChar c (x ++ c :: t) = x :: splitOnChar c t := by
  induction x with
  | nil =>
    simp only [List.nil_append, splitOnChar]
    cases hs : splitOnChar c t with
    | nil => exact absurd hs (splitOnChar_ne_nil c t)
    | cons y ys => simp
  | cons a as ih =>
    have ha : ¬ a = c := by
      intro hac; exact h (by simp [hac])
    have has : c ∉ as := fun hm => h (by simp [hm])
    have ihs := ih has
    simp only [List.cons_append, splitOnChar, List.append_eq]
    rw [ihs]
    simp [ha]

lemma splitOnChar_joinLines {c : Char} :
    ∀ (ls : List (List Char)), ls ≠ [] → (∀ l ∈ ls, c ∉ l) →
      splitOnChar c (joinLines c ls) = ls
  | [], h, _ => absurd rfl h
  | [l], _, hall => by
    simp only [joinLines]
    exact splitOnChar_no_sep (hall l (by simp))
  | l :: l2 :: rest, _, hall => by
    have hj : joinLines c (l :: l2 :: rest) = l ++ c :: joinLines c (l2 :: rest) := rfl
    rw [hj, splitOnChar_append_cons _ (hall l (by simp))]
    rw [splitOnChar_joinLines (l2 :: rest) (by simp) (fun x hx => hall x (by simp [hx]))]

lemma parse_line_eq {line : List Char} (h0 : line ≠ []) (h1 : '.' ∈ line) :
    parse_line line = some (lineKey line, lineVal line) := by
  simp [parse_line, h0, h1]

lemma mapKeys_append (m : StatusMap) (k v : List Char) :
    mapKeys (m ++ [(k, v)]) = mapKeys m ++ [k] := by
  simp [mapKeys]

lemma mapInsert_not_mem {m : StatusMap} {k : List Char} (v : List Char)
    (h : k ∉ mapKeys m) : mapInsert m k v = m ++ [(k, v)] := by
  simp [mapInsert, h]

lemma processLines_good : ∀ (ls : List (List Char)) (acc : StatusMap),
    (∀ l ∈ ls, l ≠ [] ∧ '.' ∈ l) →
    (ls.map lineKey).Nodup →
    (∀ l ∈ ls, lineKey l ∉ mapKeys acc) →
    processLines ls acc = acc ++ ls.map (fun l => (lineKey l, lineVal l))
  | [], acc, _, _, _ => by simp [processLines]
  | l :: ls, acc, hg, hd, hdisj => by
    have h0 := (hg l (by simp)).1
    have h1 := (hg l (by simp)).2
    have hnodup : (∀ x ∈ ls, ¬ lineKey x = lineKey l) ∧ (ls.map lineKey).Nodup := by
      simpa using hd
    have hrec := processLines_good ls (acc ++ [(lineKey l, lineVal l)])
      (fun x hx => hg x (by simp [hx]))
      hnodup.2
      (fun x hx => by
        rw [mapKeys_append]
        simp only [List.mem_append, List.mem_singleton]
        rintro (hmem | heq)
        · exact hdisj x (by simp [hx]) hmem
        · exact hnodup.1 x hx heq)
    simp only [processLines, parse_line_eq h0 h1]
    rw [mapInsert_not_mem (lineVal l) (hdisj l (by simp)), hrec]
    simp

lemma buildTags_error_shape {m : StatusMap} {ks : List (List Char)} {e : FieldError}
    (h : buildTags m ks = .error e) :
    ∃ l, e = FieldError.missingField l ∧ l ∈ ks ∧ mapLookup m l = none := by
  induction ks with
  | nil => simp [buildTags] at h
  | cons k ks ih =>
    cases hl : mapLookup m k with
    | none =>
      simp only [buildTags, hl] at h
      exact ⟨k, by simpa using h.symm, by simp, hl⟩
    | some raw =>
      simp only [buildTags, hl] at h
      cases hr : buildTags m ks with
      | error e2 =>
        rw [hr] at h
        simp only [Except.error.injEq] at h
        obtain ⟨l, hle, hmem, hnone⟩ := ih (hr.trans (by rw [h]))
        exact ⟨l, hle, by simp [hmem], hnone⟩
      | ok rest => rw [hr] at h; simp at h

lemma buildFields_missing_shape {m : StatusMap} {ks : List (List Char)} {l : List Char}
    (h : buildFields m ks = .error (FieldError.missingField l)) :
    l ∈ ks ∧ mapLookup m l = none := by
  induction ks with
  | nil => simp [buildFields] at h
  | cons k ks ih =>
    cases hl : mapLookup m k with
    | none =>
      simp only [buildFields, hl] at h
      simp only [Except.error.injEq, FieldError.missingField.injEq] at h
      exact ⟨by simp [h], h ▸ hl⟩
    | some raw =>
      simp only [buildFields, hl] at h
      cases hc : coerceValue k (firstTok raw) with
      | none => rw [hc] at h; simp at h
      | some v =>
        rw [hc] at h
        cases hr : buildFields m ks with
        | error e2 =>
          rw [hr] at h
          simp only [Except.error.injEq] at h
          obtain ⟨hmem, hnone⟩ := ih (hr.trans (by rw [h]))
          exact ⟨by simp [hmem], hnone⟩
        | ok rest => rw [hr] at h; simp at h

lemma buildTags_ok_of_present {m : StatusMap} {ks : List (List Char)}
    (h : ∀ k ∈ ks, (mapLookup m k).isSome = true) :
    ∃ t, buildTags m ks = .ok t := by
  induction ks with
  | nil => exact ⟨[], rfl⟩
  | cons k ks ih =>
    obtain ⟨raw, hl⟩ := Option.isSome_iff_exists.mp (h k (by simp))
    obtain ⟨t, ht⟩ := ih (fun x hx => h x (by simp [hx]))
    exact ⟨(stripSpaces k, firstTok raw) :: t, by simp [buildTags, hl, ht]⟩

lemma buildTags_error_of_absent {m : StatusMap} {ks : List (List Char)} {l : List Char}
    (hmem : l ∈ ks) (hnone : mapLookup m l = none) :
    ∃ e, buildTags m ks = .error e := by
  induction ks with
  | nil => cases hmem
  | cons k ks ih =>
    cases hl : mapLookup m k with
    | none => exact ⟨FieldError.missingField k, by simp [buildTags, hl]⟩
    | some raw =>
      have hlk : l ∈ ks := by
        rcases List.mem_cons.mp hmem with h1 | h1
        · rw [h1] at hnone; rw [hnone] at hl; cases hl
        · exact h1
      obtain ⟨e, he⟩ := ih hlk
      exact ⟨e, by simp [buildTags, hl, he]⟩

lemma buildFields_error_of_absent {m : StatusMap} {ks : List (List Char)} {l : List Char}
    (hmem : l ∈ ks) (hnone : mapLookup m l = none) :
    ∃ e, buildFields m ks = .error e := by
  induction ks with
  | nil => cases hmem
  | cons k ks ih =>
    cases hl : mapLookup m k with
    | none => exact ⟨FieldError.missingField k, by simp [buildFields, hl]⟩
    | some raw =>
      have hlk : l ∈ ks := by
        rcases List.mem_cons.mp hmem with h1 | h1
        · rw [h1] at hnone; rw [hnone] at hl; cases hl
        · exact h1
      obtain ⟨e, he⟩ := ih hlk
      cases hc : coerceValue k (firstTok raw) with
      | none => exact ⟨FieldError.valueCoercion k (firstTok raw), by simp [buildFields, hl, hc]⟩
      | some v => exact ⟨e, by simp [buildFields, hl, hc, he]⟩

lemma buildFields_first_missing {m : StatusMap} :
    ∀ (pre : List (List Char)) {l : List Char} (post : List (List Char)),
    (∀ k ∈ pre, ∃ raw, mapLookup m k = some raw ∧ (coerceValue k (firstTok raw)).isSome = true) →
    mapLookup m l = none →
    buildFields m (pre ++ l :: post) = .error (FieldError.missingField l)
  | [], l, post, _, hnone => by simp [buildFields, hnone]
  | k :: pre, l, post, hpre, hnone => by
    obtain ⟨raw, hl, hc⟩ := hpre k (by simp)
    obtain ⟨v, hv⟩ := Option.isSome_iff_exists.mp hc
    have hrec := buildFields_first_missing pre post
      (fun x hx => hpre x (by simp [hx])) hnone
    simp [buildFields, hl, hv, hrec]

lemma buildFields_coercion_error {m : StatusMap} {ks : List (List Char)}
    (hpres : ∀ k ∈ ks, (mapLookup m k).isSome = true)
    (hbad : ∃ l ∈ ks, coerceValue l (firstTok ((mapLookup m l).getD [])) = none) :
    ∃ l t, buildFields m ks = .error (FieldError.valueCoercion l t) := by
  induction ks with
  | nil => simp at hbad
  | cons k ks ih =>
    obtain ⟨raw, hl⟩ := Option.isSome_iff_exists.mp (hpres k (by simp))
    cases hc : coerceValue k (firstTok raw) with
    | none => exact ⟨k, firstTok raw, by simp [buildFields, hl, hc]⟩
    | some v =>
      obtain ⟨l, hlmem, hlbad⟩ := hbad
      have hlk : l ∈ ks := by
        rcases List.mem_cons.mp hlmem with h1 | h1
        · rw [h1, hl] at hlbad
          simp only [Option.getD_some] at hlbad
          rw [hlbad] at hc; cases hc
        · exact h1
      obtain ⟨l2, t2, hlt⟩ := ih (fun x hx => hpres x (by simp [hx])) ⟨l, hlk, hlbad⟩
      exact ⟨l2, t2, by simp [buildFields, hl, hc, hlt]⟩

lemma coerceValue_ne_state {l : List Char} (h : ¬ l = "State".toList) (t : List Char) :
    coerceValue l t = parseFloat t := by
  by_cases hbc : l = "Battery Capacity".toList
  · unfold coerceValue transformFor
    rw [if_neg h, if_pos hbc]
  · unfold coerceValue transformFor
    rw [if_neg h, if_neg hbc]

example : splitOnChar '.' ("a.b".toList) = ["a".toList, "b".toList] := by decide
example : parse_line ("State. Normal".toList) = some ("State".toList, "Normal".toList) := by decide
example : parse_line ("Remaining Runtime. 45. min".toList) = some (RUNTIME_KEY, "45".toList) := by decide
example : parseFloat ("120".toList) = some 120 := by decide
example : parseFloat ("abc".toList) = none := by decide
example : parseFloat ("20.5".toList) = some (mkRat 41 2) := by decide
example : parseFloat ("-3.25".toList) = some (mkRat (-13) 4) := by decide

/-- Claim C2: for the literal fixture StatusMap, the FieldMapper produces
exactly the tags ModelName "ModelX", FirmwareNumber "1.2", RatingVoltage
"120", RatingPower "500" and exactly the fields State 0.0, UtilityVoltage
120.0, OutputVoltage 120.0, BatteryCapacity 100.0, RemainingRuntime 45.0,
Load 30.0. -/
theorem C2_fixture_mapping :
    fieldMapper fixtureMap =
      .ok ([("ModelName".toList, "ModelX".toList),
            ("FirmwareNumber".toList, "1.2".toList),
            ("RatingVoltage".toList, "120".toList),
            ("RatingPower".toList, "500".toList)],
           [("State".toList, 0),
            ("UtilityVoltage".toList, 120),
            ("OutputVoltage".toList, 120),
            ("BatteryCapacity".toList, 100),
            ("RemainingRuntime".toList, 45),
            ("Load".toList, 30)]) := by decide

/-- Claim C3, counterexample to the stated biconditional: in `mixedFailMap`
the required label "Load" is absent, yet the FieldMapper fails with a
value-coercion error (on the earlier non-coercible "Utility Voltage"
value), not with a missing-field error.  So "fails with MissingFieldError
iff at least one required label is absent" is false as stated. -/
theorem C3_counterexample :
    mapLookup mixedFailMap ("Load".toList) = none ∧
    fieldMapper mixedFailMap =
      .error (FieldError.valueCoercion ("Utility Voltage".toList) ("abc".toList)) := by
  exact ⟨by decide, by decide⟩

/-- Claim C3 (amended): a missing-field failure happens only when a required
label (tag or value) is absent; any absent required label makes the
FieldMapper fail, so no partial (tags, fields) result is ever produced; an
absent tag label always yields the missing-field failure; and an absent
value label yields the missing-field failure provided every earlier value
label is present and coercible (otherwise the earlier value-coercion
failure is raised first). -/
theorem C3_missing_field_amended :
    (∀ (m : StatusMap) (l : List Char),
       fieldMapper m = .error (FieldError.missingField l) →
       l ∈ IMPORTANT_PWRSTAT_TAG_KEYS ++ IMPORTANT_PWRSTAT_VALUE_KEYS ∧
       mapLookup m l = none) ∧
    (∀ m : StatusMap,
       (∃ l ∈ IMPORTANT_PWRSTAT_TAG_KEYS ++ IMPORTANT_PWRSTAT_VALUE_KEYS,
          mapLookup m l = none) →
       exceptIsError (fieldMapper m) = true) ∧
    (∀ (m : StatusMap) (l : List Char),
       l ∈ IMPORTANT_PWRSTAT_TAG_KEYS → mapLookup m l = none →
       ∃ l2, fieldMapper m = .error (FieldError.missingField l2)) ∧
    (∀ (m : StatusMap) (pre : List (List Char)) (l : List Char) (post : List (List Char)),
       IMPORTANT_PWRSTAT_VALUE_KEYS = pre ++ l :: post →
       (∀ k ∈ IMPORTANT_PWRSTAT_TAG_KEYS, (mapLookup m k).isSome = true) →
       (∀ k ∈ pre, ∃ raw, mapLookup m k = some raw ∧
          (coerceValue k (firstTok raw)).isSome = true) →
       mapLookup m l = none →
       fieldMapper m = .error (FieldError.missingField l)) := by
  refine ⟨?_, ?_, ?_, ?_⟩
  · intro m l h
    cases ht : buildTags m IMPORTANT_PWRSTAT_TAG_KEYS with
    | error e =>
      simp only [fieldMapper, ht] at h
      obtain ⟨l1, he, hmem, hnone⟩ := buildTags_error_shape ht
      simp only [Except.error.injEq] at h
      rw [h] at he
      simp only [FieldError.missingField.injEq] at he
      exact ⟨by simp [he ▸ hmem], he ▸ hnone⟩
    | ok t =>
      simp only [fieldMapper, ht] at h
      cases hf : buildFields m IMPORTANT_PWRSTAT_VALUE_KEYS with
      | error e =>
        rw [hf] at h
        simp only [Except.error.injEq] at h
        obtain ⟨hmem, hnone⟩ := buildFields_missing_shape (hf.trans (by rw [h]))
        exact ⟨by simp [hmem], hnone⟩
      | ok f => rw [hf] at h; simp at h
  · intro m h
    obtain ⟨l, hmem, hnone⟩ := h
    rcases List.mem_append.mp hmem with htag | hval
    · obtain ⟨e, he⟩ := buildTags_error_of_absent htag hnone
      simp [fieldMapper, he, exceptIsError]
    · cases ht : buildTags m IMPORTANT_PWRSTAT_TAG_KEYS with
      | error e => simp [fieldMapper, ht, exceptIsError]
      | ok t =>
        obtain ⟨e, he⟩ := buildFields_error_of_absent hval hnone
        simp [fieldMapper, ht, he, exceptIsError]
  · intro m l hmem hnone
    obtain ⟨e, he⟩ := buildTags_error_of_absent hmem hnone
    obtain ⟨l2, heq, _, _⟩ := buildTags_error_shape he
    exact ⟨l2, by simp [fieldMapper, he, heq]⟩
  · intro m pre l post hsplit htags hpre hnone
    obtain ⟨t, ht⟩ := buildTags_ok_of_present htags
    have hf := buildFields_first_missing pre post hpre hnone
    simp only [fieldMapper, ht, hsplit, hf]

/-- Claim C3, witness: the four amended conjuncts exercised on concrete
inputs (the empty map, and the map holding only the four tag labels). -/
theorem C3_missing_field_witness :
    (("Model Name".toList ∈
        IMPORTANT_PWRSTAT_TAG_KEYS ++ IMPORTANT_PWRSTAT_VALUE_KEYS ∧
      mapLookup [] ("Model Name".toList) = none)) ∧
    exceptIsError (fieldMapper []) = true ∧
    (∃ l2, fieldMapper [] = .error (FieldError.missingField l2)) ∧
    fieldMapper tagsOnlyMap = .error (FieldError.missingField ("State".toList)) :=
  ⟨C3_missing_field_amended.1 [] ("Model Name".toList) (by decide),
   C3_missing_field_amended.2.1 [] (by decide),
   C3_missing_field_amended.2.2.1 [] ("Model Name".toList) (by decide) (by decide),
   C3_missing_field_amended.2.2.2 tagsOnlyMap []
     ("State".toList)
     ["Utility Voltage".toList, "Output Voltage".toList, "Battery Capacity".toList,
      "Remaining Runtime".toList, "Load".toList]
     (by decide) (by decide) (by simp) (by decide)⟩

/-- Claim C4: when every required label is present but some required value
label other than "State" (the only transform that overrides float parsing)
has a first token that float parsing rejects, the FieldMapper fails with a
value-coercion error; being a failure, nothing is coerced to zero, no field
is silently dropped, and the publish step is aborted. -/
theorem C4_value_coercion (m : StatusMap)
    (h1 : ∀ k ∈ IMPORTANT_PWRSTAT_TAG_KEYS ++ IMPORTANT_PWRSTAT_VALUE_KEYS,
            (mapLookup m k).isSome = true)
    (h2 : ∃ l ∈ IMPORTANT_PWRSTAT_VALUE_KEYS, ¬ l = "State".toList ∧
            parseFloat (firstTok ((mapLookup m l).getD [])) = none) :
    ∃ l t, fieldMapper m = .error (FieldError.valueCoercion l t) := by
  have htags : ∀ k ∈ IMPORTANT_PWRSTAT_TAG_KEYS, (mapLookup m k).isSome = true :=
    fun k hk => h1 k (List.mem_append.mpr (Or.inl hk))
  have hvals : ∀ k ∈ IMPORTANT_PWRSTAT_VALUE_KEYS, (mapLookup m k).isSome = true :=
    fun k hk => h1 k (List.mem_append.mpr (Or.inr hk))
  obtain ⟨t, ht⟩ := buildTags_ok_of_present htags
  obtain ⟨l, hmem, hne, hpf⟩ := h2
  have hbad : coerceValue l (firstTok ((mapLookup m l).getD [])) = none := by
    rw [coerceValue_ne_state hne]; exact hpf
  obtain ⟨l2, t2, hf⟩ := buildFields_coercion_error hvals ⟨l, hmem, hbad⟩
  exact ⟨l2, t2, by simp [fieldMapper, ht, hf]⟩

/-- Claim C4, witness: `badCoerceMap` has every required label but a
non-coercible "Utility Voltage" token, and the FieldMapper fails with a
value-coercion error on it. -/
theorem C4_value_coercion_witness :
    ∃ l t, fieldMapper badCoerceMap = .error (FieldError.valueCoercion l t) :=
  C4_value_coercion badCoerceMap (by decide) (by decide)

/-- Claim C5: the transform registered for the "State" label maps the single
sentinel string "Normal" to 0.0 and every other string to 1.0. -/
theorem C5_state_transform :
    transformFor ("State".toList) = some (fun x => some (stateTransform x)) ∧
    stateTransform ("Normal".toList) = 0 ∧
    (∀ x : List Char, ¬ x = "Normal".toList → stateTransform x = 1) := by
  refine ⟨rfl, by decide, ?_⟩
  intro x hx
  unfold stateTransform
  rw [if_neg hx]

/-- Claim C5, witness: the sentinel maps to 0 and a concrete non-sentinel
string maps to 1. -/
theorem C5_state_transform_witness :
    stateTransform ("Normal".toList) = 0 ∧
    stateTransform ("Power Failure".toList) = 1 :=
  ⟨C5_state_transform.2.1,
   C5_state_transform.2.2 ("Power Failure".toList) (by decide)⟩

lemma reverse_getD_one {α : Type} (l : List α) (d : α) (h : 2 ≤ l.length) :
    l.reverse.getD 1 d = l.getD (l.length - 2) d := by
  have h1 : 1 < l.length := h
  rw [List.getD_eq_getElem?_getD, List.getElem?_reverse h1]
  have e2 : l.length - 1 - 1 = l.length - 2 := by omega
  rw [e2, List.getD_eq_getElem?_getD]

lemma reverse_headD {α : Type} (l : List α) (d : α) :
    l.reverse.headD d = l.getLastD d := by
  rw [List.headD_eq_head?, List.head?_reverse, List.getLastD_eq_getLast?]

/-- Claim C1 (amended): for every processed line (non-empty, containing a
period), the key is the trimmed first period-delimited segment, and the
extracted value is the trimmed second-to-last segment exactly when the LINE
CONTAINS the substring "Remaining Runtime" anywhere (the code tests
substring containment on the whole line, not equality of the trimmed
label); when the line does not contain that substring, the value is the
trimmed last segment. -/
theorem C1_runtime_value_amended (line : List Char) (h0 : line ≠ []) (h1 : '.' ∈ line) :
    (strContains line RUNTIME_KEY = true →
       parse_line line =
         some (pyTrim ((splitOnChar '.' line).headD []),
               pyTrim ((splitOnChar '.' line).reverse.getD 1 []))) ∧
    (strContains line RUNTIME_KEY = false →
       parse_line line =
         some (pyTrim ((splitOnChar '.' line).headD []),
               pyTrim ((splitOnChar '.' line).reverse.headD []))) := by
  have hls2 := two_le_splitOnChar h1
  have hp := parse_line_eq h0 h1
  constructor
  · intro hc
    rw [hp, reverse_getD_one _ _ hls2]
    unfold lineKey lineVal
    simp [hc]
  · intro hc
    rw [hp, reverse_headD]
    unfold lineKey lineVal
    simp [hc]

/-- Claim C1, counterexample to the stated label-based rule: the line
"X.Remaining Runtime.b" has trimmed label "X" (not "Remaining Runtime"),
so the claim requires its value to be the last segment "b"; the code
extracts the second-to-last segment "Remaining Runtime" because the
substring test fires on the whole line. -/
theorem C1_counterexample :
    pyTrim ((splitOnChar '.' ("X.Remaining Runtime.b".toList)).headD []) = "X".toList ∧
    parse_line ("X.Remaining Runtime.b".toList) =
      some ("X".toList, "Remaining Runtime".toList) ∧
    pyTrim ((splitOnChar '.' ("X.Remaining Runtime.b".toList)).getLastD []) = "b".toList :=
  ⟨by decide, by decide, by decide⟩

/-- Claim C1, witness: both branches of the amended rule evaluated on
concrete lines. -/
theorem C1_runtime_value_witness :
    parse_line ("Remaining Runtime. 45. min".toList) =
      some (pyTrim ((splitOnChar '.' ("Remaining Runtime. 45. min".toList)).headD []),
            pyTrim ((splitOnChar '.' ("Remaining Runtime. 45. min".toList)).reverse.getD 1 [])) ∧
    parse_line ("State. Normal".toList) =
      some (pyTrim ((splitOnChar '.' ("State. Normal".toList)).headD []),
            pyTrim ((splitOnChar '.' ("State. Normal".toList)).reverse.headD [])) :=
  ⟨(C1_runtime_value_amended ("Remaining Runtime. 45. min".toList)
      (by decide) (by decide)).1 (by decide),
   (C1_runtime_value_amended ("State. Normal".toList)
      (by decide) (by decide)).2 (by decide)⟩

/-- Claim C10: the parser is total and all its list accesses are in bounds:
every line containing a period splits into at least two segments, every
processed line yields a key and a value that are trimmed genuine segments
of the split (the defaulted accesses never fall back to their defaults),
and `parse_pwrstat` is defined (as a total function) on every input string. -/
theorem C10_parse_total :
    (∀ line : List Char, '.' ∈ line → 2 ≤ (splitOnChar '.' line).length) ∧
    (∀ line : List Char, line ≠ [] → '.' ∈ line →
       ∃ k v, parse_line line = some (k, v) ∧
         (∃ s ∈ splitOnChar '.' line, k = pyTrim s) ∧
         (∃ s ∈ splitOnChar '.' line, v = pyTrim s)) ∧
    (∀ out : List Char, parse_pwrstat out = processLines ((splitOnChar '\n' out).drop 3) []) := by
  refine ⟨fun line h => two_le_splitOnChar h, ?_, fun out => rfl⟩
  intro line h0 h1
  have hls2 := two_le_splitOnChar h1
  have hne : splitOnChar '.' line ≠ [] := splitOnChar_ne_nil '.' line
  refine ⟨lineKey line, lineVal line, parse_line_eq h0 h1,
    ⟨(splitOnChar '.' line).headD [], mem_headD [] hne, rfl⟩, ?_⟩
  cases hc : strContains line RUNTIME_KEY with
  | true =>
    refine ⟨(splitOnChar '.' line).getD ((splitOnChar '.' line).length - 2) [],
      mem_getD [] (by omega), ?_⟩
    unfold lineVal
    simp [hc]
  | false =>
    refine ⟨(splitOnChar '.' line).getLastD [], mem_getLastD [] hne, ?_⟩
    unfold lineVal
    simp [hc]

/-- Claim C10, witness: the bound, the segment-membership facts and the
definitional equation evaluated on concrete inputs. -/
theorem C10_parse_total_witness :
    2 ≤ (splitOnChar '.' ("a.b".toList)).length ∧
    (∃ k v, parse_line ("a.b".toList) = some (k, v) ∧
       (∃ s ∈ splitOnChar '.' ("a.b".toList), k = pyTrim s) ∧
       (∃ s ∈ splitOnChar '.' ("a.b".toList), v = pyTrim s)) ∧
    parse_pwrstat ("x".toList) =
      processLines ((splitOnChar '\n' ("x".toList)).drop 3) [] :=
  ⟨C10_parse_total.1 ("a.b".toList) (by decide),
   C10_parse_total.2.1 ("a.b".toList) (by decide) (by decide),
   C10_parse_total.2.2 ("x".toList)⟩

/-- Claim C6 (amended): for every status text made of three header lines
followed by N non-empty dotted lines whose trimmed labels are PAIRWISE
DISTINCT (and no line containing a newline), the parser returns a StatusMap
with exactly N entries whose keys are, in order, the trimmed text preceding
the first period of each line.  (Without distinctness the dict overwrites
duplicates and has fewer than N entries.) -/
theorem C6_well_formed_parse (h1 h2 h3 : List Char) (body : List (List Char))
    (hnl : ∀ l ∈ h1 :: h2 :: h3 :: body, '\n' ∉ l)
    (hgood : ∀ l ∈ body, l ≠ [] ∧ '.' ∈ l)
    (hdist : (body.map lineKey).Nodup) :
    (parse_pwrstat (joinLines '\n' (h1 :: h2 :: h3 :: body))).length = body.length ∧
    mapKeys (parse_pwrstat (joinLines '\n' (h1 :: h2 :: h3 :: body))) = body.map lineKey := by
  have hsplit := splitOnChar_joinLines (h1 :: h2 :: h3 :: body) (by simp) hnl
  have hdrop : (splitOnChar '\n' (joinLines '\n' (h1 :: h2 :: h3 :: body))).drop 3 = body := by
    rw [hsplit]
    rfl
  have hproc := processLines_good body [] hgood hdist (by simp [mapKeys])
  rw [parse_pwrstat, hdrop, hproc]
  constructor
  · simp
  · simp [mapKeys]

/-- Claim C6, counterexample to the claim as frozen (which quantifies over
all well-formed texts, without requiring distinct labels): the text with
header "h","h","h" and the two well-formed dotted body lines "A.x" and
"A.y" yields a StatusMap with 1 entry, not N = 2, because the dict entry
for the duplicate label "A" is overwritten. -/
theorem C6_counterexample :
    (parse_pwrstat ("h\nh\nh\nA.x\nA.y".toList)).length = 1 ∧
    ¬ (parse_pwrstat ("h\nh\nh\nA.x\nA.y".toList)).length = 2 :=
  ⟨by decide, by decide⟩

/-- Claim C6, witness: a concrete three-line header plus two distinct dotted
lines parses to exactly those two keys in order. -/
theorem C6_well_formed_witness :
    (parse_pwrstat (joinLines '\n'
       ("hdr".toList :: "".toList :: "Properties".toList ::
        ["A. x".toList, "B. y".toList]))).length =
      (["A. x".toList, "B. y".toList] : List (List Char)).length ∧
    mapKeys (parse_pwrstat (joinLines '\n'
       ("hdr".toList :: "".toList :: "Properties".toList ::
        ["A. x".toList, "B. y".toList]))) =
      (["A. x".toList, "B. y".toList] : List (List Char)).map lineKey :=
  C6_well_formed_parse ("hdr".toList) ("".toList) ("Properties".toList)
    ["A. x".toList, "B. y".toList] (by decide) (by decide) (by decide)

/-- Claim C7: in any cycle in which the external status command exits
non-zero, the loop logs the captured stderr and terminates: the cycle
produces no parse, map, build or sink-write event, and no later cycle runs. -/
theorem C7_nonzero_exit (series : List Char) (dryRun : Bool)
    (c : CycleInput) (rest : List CycleInput) (h : ¬ c.returncode = 0) :
    run_scrape_loop series dryRun (c :: rest) = [Event.cmdErrorLog c.stderr] := by
  simp [run_scrape_loop, h]

/-- Claim C7, witness: a failing cycle followed by a healthy one still ends
the trace at the error log. -/
theorem C7_nonzero_exit_witness :
    run_scrape_loop ("ups".toList) false (failCycle :: [goodCycle true]) =
      [Event.cmdErrorLog failCycle.stderr] :=
  C7_nonzero_exit ("ups".toList) false failCycle [goodCycle true] (by decide)

/-- Claim C8: in dry-run mode no sink-write is ever attempted in any cycle,
while a successful cycle still parses the output, maps the fields and
builds the point with its timestamp before sleeping and continuing. -/
theorem C8_dry_run (series : List Char) :
    (∀ (inputs : List CycleInput) (p : MetricPoint),
       Event.writeAttempt p ∉ run_scrape_loop series true inputs) ∧
    (∀ (c : CycleInput) (rest : List CycleInput)
       (t : List (List Char × List Char)) (f : List (List Char × ℚ)),
       c.returncode = 0 →
       fieldMapper (parse_pwrstat c.stdout) = .ok (t, f) →
       run_scrape_loop series true (c :: rest) =
         Event.parsed (parse_pwrstat c.stdout) ::
         Event.built ⟨series, t, f, c.ts⟩ ::
         Event.slept :: run_scrape_loop series true rest) := by
  constructor
  · intro inputs p
    induction inputs with
    | nil => simp [run_scrape_loop]
    | cons c rest ih =>
      by_cases h : c.returncode = 0
      · cases hw : write_influxdb series (parse_pwrstat c.stdout) c.ts true c.sinkOk with
        | error e => simp [run_scrape_loop, h, hw]
        | ok evs =>
          have hex : ∃ pt, evs = [Event.built pt] := by
            unfold write_influxdb at hw
            cases hm : fieldMapper (parse_pwrstat c.stdout) with
            | error e2 => rw [hm] at hw; cases hw
            | ok tf =>
              rw [hm] at hw
              simp only [if_true, Except.ok.injEq] at hw
              exact ⟨_, hw.symm⟩
          obtain ⟨pt, hevs⟩ := hex
          simp [run_scrape_loop, h, hw, hevs, ih]
      · simp [run_scrape_loop, h]
  · intro c rest t f h0 hm
    have hw : write_influxdb series (parse_pwrstat c.stdout) c.ts true c.sinkOk =
        .ok [Event.built ⟨series, t, f, c.ts⟩] := by
      simp [write_influxdb, hm]
    simp [run_scrape_loop, h0, hw]

set_option maxRecDepth 40000 in
/-- Claim C8, witness: a dry-run trace over a concrete healthy cycle
contains no write attempt yet contains the parse, the built point with its
timestamp, and the sleep. -/
theorem C8_dry_run_witness :
    Event.writeAttempt goodPoint ∉ run_scrape_loop ("ups".toList) true [goodCycle true] ∧
    run_scrape_loop ("ups".toList) true (goodCycle true :: []) =
      Event.parsed (parse_pwrstat (goodCycle true).stdout) ::
      Event.built ⟨"ups".toList, goodTags, goodFields, (goodCycle true).ts⟩ ::
      Event.slept :: run_scrape_loop ("ups".toList) true [] :=
  ⟨(C8_dry_run ("ups".toList)).1 [goodCycle true] goodPoint,
   (C8_dry_run ("ups".toList)).2 (goodCycle true) [] goodTags goodFields rfl (by decide)⟩

/-- Claim C9: when the sink reports a write failure in a cycle, an error is
logged, the cycle still completes (the sleep happens) and the loop
continues with the remaining cycles — a sink write failure never
terminates the loop. -/
theorem C9_sink_failure (series : List Char) (c : CycleInput) (rest : List CycleInput)
    (t : List (List Char × List Char)) (f : List (List Char × ℚ))
    (h0 : c.returncode = 0) (h1 : c.sinkOk = false)
    (h2 : fieldMapper (parse_pwrstat c.stdout) = .ok (t, f)) :
    run_scrape_loop series false (c :: rest) =
      Event.parsed (parse_pwrstat c.stdout) ::
      Event.built ⟨series, t, f, c.ts⟩ ::
      Event.writeAttempt ⟨series, t, f, c.ts⟩ ::
      Event.writeErrorLog ::
      Event.slept :: run_scrape_loop series false rest := by
  have hw : write_influxdb series (parse_pwrstat c.stdout) c.ts false c.sinkOk =
      .ok [Event.built ⟨series, t, f, c.ts⟩, Event.writeAttempt ⟨series, t, f, c.ts⟩,
           Event.writeErrorLog] := by
    simp [write_influxdb, h2, h1]
  simp [run_scrape_loop, h0, hw]

set_option maxRecDepth 40000 in
/-- Claim C9, witness: a concrete healthy cycle whose sink rejects the write
logs the error, sleeps, and hands control to the rest of the trace. -/
theorem C9_sink_failure_witness :
    run_scrape_loop ("ups".toList) false (goodCycle false :: []) =
      Event.parsed (parse_pwrstat (goodCycle false).stdout) ::
      Event.built ⟨"ups".toList, goodTags, goodFields, (goodCycle false).ts⟩ ::
      Event.writeAttempt ⟨"ups".toList, goodTags, goodFields, (goodCycle false).ts⟩ ::
      Event.writeErrorLog ::
      Event.slept :: run_scrape_loop ("ups".toList) false [] :=
  C9_sink_failure ("ups".toList) (goodCycle false) [] goodTags goodFields rfl rfl (by decide)
